import Mathlib

/-!
Shallow embedding of `src/homework.py`, a demand-response payout pipeline.

Timestamps are minutes since 2022-05-30 00:00 (a Monday), so day-of-week
arithmetic is `day % 7` with `0 = Monday`.  Readings are rationals.  Pandas
`NaN` values (mean of an empty selection, index-alignment misses) are
modelled as `none : Option ℚ`; every arithmetic operation of the source that
propagates `NaN` propagates `none` here.
-/

namespace Homework

/-- `index.floor("h")`: truncate a timestamp to the start of its hour. -/
def floorHour (t : Nat) : Nat := t / 60 * 60

/-- `index.hour`: the hour-of-day (0..23) of a timestamp. -/
def hourOfDay (t : Nat) : Nat := t / 60 % 24

/-- `index.dayofweek`: 0 = Monday .. 6 = Sunday. -/
def dayOfWeek (t : Nat) : Nat := t / 1440 % 7

/-- Insert a key into a sorted duplicate-free list of keys, keeping it
sorted and duplicate-free (used to model pandas' sorted group/union index). -/
def insertKey (k : Nat) : List Nat → List Nat
  | [] => [k]
  | x :: xs => if k < x then k :: x :: xs else if k = x then x :: xs else x :: insertKey k xs

/-- The sorted, duplicate-free list of keys occurring in `l`
(pandas `groupby` keys / union index are sorted and unique). -/
def sortedKeys (l : List Nat) : List Nat := l.foldr insertKey []

/-- Sum of the readings of `s` whose timestamp floors to the hour `k`
(one `groupby(floor("h")).sum()` bucket). -/
def groupSum (s : List (Nat × ℚ)) (k : Nat) : ℚ :=
  ((s.filter (fun p => floorHour p.1 == k)).map (fun p => p.2)).sum

/-- `series.groupby(series.index.floor("h")).sum()`: hourly totals, keyed by
hour-start timestamp, keys sorted and unique. -/
def hourlyAgg (s : List (Nat × ℚ)) : List (Nat × ℚ) :=
  (sortedKeys (s.map (fun p => floorHour p.1))).map (fun k => (k, groupSum s k))

/-- Index lookup in a keyed list (first matching key, as a pandas unique
index lookup). -/
def lookup {α : Type} (l : List (Nat × α)) (k : Nat) : Option α :=
  (l.find? (fun p => p.1 == k)).map (fun p => p.2)

/-- Pandas `.mean()` of a series of defined values: `NaN` (`none`) when the
series is empty, the arithmetic mean otherwise. -/
def listMean (l : List ℚ) : Option ℚ :=
  match l with
  | [] => none
  | _ :: _ => some (l.sum / l.length)

/-- Pandas `.mean()` with its default `skipna=True` over a series that may
contain `NaN` entries: the mean of the defined entries, `NaN` when none are. -/
def skipnaMean (l : List (Option ℚ)) : Option ℚ := listMean (l.filterMap id)

/-- One step of `pandas.offsets.BusinessDay` subtraction: the same time of
day on the previous business day (Monday maps back to Friday). -/
def subBDay (t : Nat) : Nat :=
  let u := t - 1440
  if u / 1440 % 7 < 5 then u
  else
    let u2 := u - 1440
    if u2 / 1440 % 7 < 5 then u2 else u2 - 1440

/-- `t - pd.offsets.BusinessDay(n)`. -/
def subBDays (t : Nat) : Nat → Nat
  | 0 => t
  | n + 1 => subBDays (subBDay t) n

/-- `n` hourly timestamps starting at `a`: `a, a+60, …`. -/
def hourRangeAux (a : Nat) : Nat → List Nat
  | 0 => []
  | n + 1 => a :: hourRangeAux (a + 60) n

/-- `pd.date_range(a, b, freq="h")`: hour steps from `a` while `≤ b`,
inclusive of both endpoints. -/
def hourRange (a b : Nat) : List Nat :=
  if a ≤ b then hourRangeAux a ((b - a) / 60 + 1) else []

/-- The historical window of `get_10of10_baselines`: the `.loc` slice from
`event_start - BusinessDay(10)` to `event_end - BusinessDay(1)` (label
slicing, both ends inclusive), then the weekend filter
`data[data.index.dayofweek < 5]`. -/
def tenDayWindow (data : List (Nat × ℚ)) (event_start event_end : Nat) : List (Nat × ℚ) :=
  (data.filter (fun p =>
      subBDays event_start 10 ≤ p.1 && p.1 ≤ subBDays event_end 1)).filter
    (fun p => dayOfWeek p.1 < 5)

/-- `data[data.index.hour == i.hour]` applied to the hourly aggregate of the
filtered window: the historical hourly totals whose hour-of-day is `h`. -/
def historicalHourTotals (data : List (Nat × ℚ)) (event_start event_end : Nat) (h : Nat) :
    List ℚ :=
  ((hourlyAgg (tenDayWindow data event_start event_end)).filter
      (fun p => hourOfDay p.1 == h)).map (fun p => p.2)

/-- `get_10of10_baselines`: for each timestamp of
`pd.date_range(event_start, event_end, freq="h")`, the mean of the
historical hourly totals sharing its hour-of-day (`NaN`, i.e. `none`, when
there are none). -/
def get_10of10_baselines (data : List (Nat × ℚ)) (event_start event_end : Nat) :
    List (Nat × Option ℚ) :=
  (hourRange event_start event_end).map
    (fun i => (i, listMean (historicalHourTotals data event_start event_end (hourOfDay i))))

/-- Default `event_start` of the source: 2022-06-14 14:00. -/
def event_start_default : Nat := 22440

/-- Default `event_end` of the source: 2022-06-14 17:00. -/
def event_end_default : Nat := 22620

/-- The `baseline` argument of `customer_performance_from_baseline`:
`Union[pd.Series, float]`, a scalar FSL baseline or an hourly series whose
entries may be `NaN`. -/
inductive BaselineArg : Type
  | scalar (c : ℚ)
  | series (b : List (Nat × Option ℚ))

/-- The union-aligned difference `baseline - hourly` of a baseline series
and an hourly-total series: keyed by the sorted union of the two indexes,
`NaN` wherever either side is missing or the baseline entry is `NaN`. -/
def alignSub (b : List (Nat × Option ℚ)) (agg : List (Nat × ℚ)) : List (Nat × Option ℚ) :=
  (sortedKeys (b.map (fun p => p.1) ++ agg.map (fun p => p.1))).map
    (fun k =>
      (k, match lookup b k, lookup agg k with
          | some (some bv), some av => some (bv - av)
          | _, _ => none))

/-- `customer_performance_from_baseline`: the mean of
`baseline - customer_series.groupby(floor("h")).sum()`.  A scalar baseline
broadcasts over the hourly totals; a series baseline is union-aligned, and
the final `.mean()` skips `NaN` entries. -/
def customer_performance_from_baseline (customer_series : List (Nat × ℚ))
    (baseline : BaselineArg) : Option ℚ :=
  match baseline with
  | .scalar c =>
      listMean ((hourlyAgg customer_series).map (fun p => c - p.2))
  | .series b =>
      skipnaMean ((alignSub b (hourlyAgg customer_series)).map (fun p => p.2))

/-- One row of the dataframe built by `calculate_payouts`. -/
structure PayoutRow : Type where
  perf : Option ℚ
  revenue : Option ℚ
  customerShare : Option ℚ
  voltusShare : Option ℚ
deriving DecidableEq, Repr

/-- The body of `calculate_payouts` at one index key: performance from the
aligned `baseline - hourly` difference, revenue
`max(perf * price / 1000, 0)` (`NaN` when the performance or the price is
missing, since `max(nan, 0)` is `nan`), customer share `revenue * r`, and
Voltus share `revenue - customer share`. -/
def payoutRow (baseline : List (Nat × Option ℚ)) (agg : List (Nat × ℚ))
    (customer_profit_share : ℚ) (hourly_payout_rates : List (Nat × ℚ)) (k : Nat) :
    PayoutRow :=
  let perf : Option ℚ :=
    match lookup baseline k, lookup agg k with
    | some (some bv), some av => some (bv - av)
    | _, _ => none
  let rev : Option ℚ :=
    match perf, lookup hourly_payout_rates k with
    | some p, some pr => some (max (p * pr / 1000) 0)
    | _, _ => none
  let cust : Option ℚ := rev.map (fun x => x * customer_profit_share)
  let volt : Option ℚ :=
    match rev, cust with
    | some x, some y => some (x - y)
    | _, _ => none
  ⟨perf, rev, cust, volt⟩

/-- `calculate_payouts`: hourly totals of the event-window series, then the
per-hour dataframe over the union index of baseline and hourly totals. -/
def calculate_payouts (customer_series : List (Nat × ℚ)) (baseline : List (Nat × Option ℚ))
    (customer_profit_share : ℚ) (hourly_payout_rates : List (Nat × ℚ)) :
    List (Nat × PayoutRow) :=
  (sortedKeys (baseline.map (fun p => p.1) ++ (hourlyAgg customer_series).map (fun p => p.1))).map
    (fun k =>
      (k, payoutRow baseline (hourlyAgg customer_series) customer_profit_share
        hourly_payout_rates k))

/-- The module-level `hourly_rates` table of the source. -/
def hourly_rates : List (Nat × ℚ) :=
  [(22440, 1500), (22500, 1800), (22560, 3000), (22620, 780)]

/-- Change the reading recorded at timestamp `t` to `v` (an "outlier
injection" into a historical series): every entry keyed `t` gets value `v`,
all other entries are untouched. -/
def updateAt (l : List (Nat × ℚ)) (t : Nat) (v : ℚ) : List (Nat × ℚ) :=
  l.map (fun p => if p.1 = t then (t, v) else p)

/-- The day numbers (days since 2022-05-30) of the 10 business days the
default event's 10-of-10 window can draw from: 2022-05-31 … 2022-06-13. -/
def tenBusinessDays : List Nat := [1, 2, 3, 4, 7, 8, 9, 10, 11, 14]

/-- Addition of two possibly-`NaN` quantities (`NaN` absorbs, as in pandas):
used to state that the two shares sum back to the revenue. -/
def oadd (a b : Option ℚ) : Option ℚ :=
  match a, b with
  | some x, some y => some (x + y)
  | _, _ => none

/-- An interval series fully covering `k` whole hours at a fixed sub-hourly
cadence of `N` intervals per hour, starting at the hour-aligned timestamp
`t0`: the timestamps are exactly `t0, t0 + 60/N, t0 + 2·(60/N), …` for
`k·N` readings. -/
def fullCadenceCoverage (N k : Nat) (t0 : Nat) (s : List (Nat × ℚ)) : Prop :=
  0 < N ∧ N ∣ 60 ∧ t0 % 60 = 0 ∧
    s.map (fun p => p.1) = (List.range (k * N)).map (fun i => t0 + i * (60 / N))

instance fullCadenceCoverageDecidable (N k : Nat) (t0 : Nat) (s : List (Nat × ℚ)) :
    Decidable (fullCadenceCoverage N k t0 s) := by
  unfold fullCadenceCoverage
  infer_instance

/-- Membership in `insertKey`: exactly the inserted key and the old members. -/
theorem mem_insertKey {a k : Nat} {l : List Nat} : a ∈ insertKey k l ↔ a = k ∨ a ∈ l := by
  induction l with
  | nil => simp [insertKey]
  | cons x xs ih =>
      by_cases h1 : k < x
      · simp [insertKey, h1]
      · by_cases h2 : k = x
        · subst h2
          rw [insertKey, if_neg h1, if_pos rfl, List.mem_cons]
          tauto
        · simp only [insertKey, if_neg h1, if_neg h2, List.mem_cons, ih]
          tauto

/-- `insertKey` preserves strict sortedness. -/
theorem sorted_insertKey {k : Nat} {l : List Nat} (h : l.Sorted (· < ·)) :
    (insertKey k l).Sorted (· < ·) := by
  induction l with
  | nil => simp [insertKey]
  | cons x xs ih =>
      rw [List.sorted_cons] at h
      obtain ⟨hx, hxs⟩ := h
      by_cases h1 : k < x
      · rw [insertKey, if_pos h1, List.sorted_cons]
        refine ⟨?_, ?_⟩
        · intro b hb
          rcases List.mem_cons.mp hb with rfl | hb
          · exact h1
          · exact h1.trans (hx b hb)
        · rw [List.sorted_cons]
          exact ⟨hx, hxs⟩
      · by_cases h2 : k = x
        · rw [insertKey, if_neg h1, if_pos h2, List.sorted_cons]
          exact ⟨hx, hxs⟩
        · rw [insertKey, if_neg h1, if_neg h2, List.sorted_cons]
          refine ⟨?_, ih hxs⟩
          intro b hb
          rcases mem_insertKey.mp hb with rfl | hb
          · exact Nat.lt_of_le_of_ne (Nat.not_lt.mp h1) fun e => h2 e.symm
          · exact hx b hb

/-- `sortedKeys` is strictly sorted. -/
theorem sorted_sortedKeys (l : List Nat) : (sortedKeys l).Sorted (· < ·) := by
  induction l with
  | nil => simp [sortedKeys]
  | cons x xs ih => exact sorted_insertKey ih

/-- `sortedKeys` has no duplicate keys. -/
theorem nodup_sortedKeys (l : List Nat) : (sortedKeys l).Nodup :=
  (sorted_sortedKeys l).imp (fun h => Nat.ne_of_lt h)

/-- `sortedKeys` has exactly the members of its input. -/
theorem mem_sortedKeys {a : Nat} {l : List Nat} : a ∈ sortedKeys l ↔ a ∈ l := by
  induction l with
  | nil => simp [sortedKeys]
  | cons x xs ih =>
      show a ∈ insertKey x (sortedKeys xs) ↔ _
      rw [mem_insertKey, ih, List.mem_cons]

/-- Splitting a mapped sum along a Boolean filter. -/
theorem sum_map_filter_split {α : Type} (p : α → Bool) (f : α → ℚ) (l : List α) :
    ((l.filter p).map f).sum + ((l.filter (fun a => !(p a))).map f).sum = (l.map f).sum := by
  induction l with
  | nil => simp
  | cons x xs ih =>
      by_cases h : p x
      · simp only [List.filter_cons, h, if_pos, List.map_cons, List.sum_cons]
        simp only [h, Bool.not_true, Bool.false_eq_true, if_false]
        rw [← ih]
        ring

      · simp only [List.filter_cons]
        have h' : p x = false := by revert h; cases p x <;> simp
        simp only [h', Bool.not_false, Bool.false_eq_true, if_false, if_true,
          List.map_cons, List.sum_cons]
        rw [← ih]
        ring

/-- Filtering away one hour bucket does not change the other buckets' sums. -/
theorem groupSum_filter_ne {s : List (Nat × ℚ)} {k k' : Nat} (h : k' ≠ k) :
    groupSum (s.filter (fun p => !(floorHour p.1 == k))) k' = groupSum s k' := by
  unfold groupSum
  rw [List.filter_filter]
  have he : List.filter (fun a => floorHour a.1 == k' && !(floorHour a.1 == k)) s
      = List.filter (fun p => floorHour p.1 == k') s := by
    apply List.filter_congr
    intro p _
    by_cases hp : floorHour p.1 = k'
    · simp [hp, h]
    · simp [hp]
  rw [he]

/-- Summing the bucket totals over any duplicate-free list of keys that
covers every reading recovers the total of the readings. -/
theorem sum_groupSums (keys : List Nat) (s : List (Nat × ℚ)) (hnd : keys.Nodup)
    (hcov : ∀ p ∈ s, floorHour p.1 ∈ keys) :
    (keys.map (groupSum s)).sum = (s.map (fun p => p.2)).sum := by
  induction keys generalizing s with
  | nil =>
      cases s with
      | nil => simp
      | cons p ps => exact absurd (hcov p (List.mem_cons_self p ps)) (List.not_mem_nil _)
  | cons k ks ih =>
      rw [List.map_cons, List.sum_cons]
      rw [List.nodup_cons] at hnd
      have hsplit := sum_map_filter_split (fun p => floorHour p.1 == k) (fun p => p.2) s
      have h1 : groupSum s k = ((s.filter (fun p => floorHour p.1 == k)).map
          (fun p => p.2)).sum := rfl
      have h2 : (ks.map (groupSum s)).sum =
          (ks.map (groupSum (s.filter (fun p => !(floorHour p.1 == k))))).sum := by
        apply congrArg
        apply List.map_congr_left
        intro k' hk'
        have : k' ≠ k := fun e => hnd.1 (e ▸ hk')
        exact (groupSum_filter_ne this).symm
      rw [h1, h2, ih (s.filter (fun p => !(floorHour p.1 == k))) hnd.2 ?_, hsplit]
      intro p hp
      rw [List.mem_filter] at hp
      have := hcov p hp.1
      rcases List.mem_cons.mp this with e | h
      · exfalso
        have := hp.2
        rw [e] at this
        simp at this
      · exact h

/-- The total of the hourly aggregate equals the total of the raw series. -/
theorem hourlyAgg_sum (s : List (Nat × ℚ)) :
    ((hourlyAgg s).map (fun p => p.2)).sum = (s.map (fun p => p.2)).sum := by
  unfold hourlyAgg
  rw [List.map_map]
  have : ((fun p : Nat × ℚ => p.2) ∘ fun k => (k, groupSum s k)) = groupSum s := rfl
  rw [this]
  apply sum_groupSums
  · exact nodup_sortedKeys _
  · intro p hp
    rw [mem_sortedKeys]
    exact List.mem_map.mpr ⟨p, hp, rfl⟩

/-- A `lookup` misses exactly when the key is absent from the index. -/
theorem lookup_eq_none_iff {α : Type} {l : List (Nat × α)} {k : Nat} :
    lookup l k = none ↔ k ∉ l.map (fun p => p.1) := by
  unfold lookup
  rw [Option.map_eq_none', List.find?_eq_none]
  constructor
  · intro h hk
    rcases List.mem_map.mp hk with ⟨p, hp, he⟩
    have := h p hp
    simp [he] at this
  · intro h p hp
    simp only [beq_iff_eq]
    intro e
    exact h (List.mem_map.mpr ⟨p, hp, e⟩)

/-- `lookup` of a key present in a duplicate-free index finds its value. -/
theorem lookup_of_mem_of_nodup {α : Type} {l : List (Nat × α)} {k : Nat} {v : α}
    (hnd : (l.map (fun p => p.1)).Nodup) (hm : (k, v) ∈ l) : lookup l k = some v := by
  induction l with
  | nil => cases hm
  | cons p ps ih =>
      rw [List.map_cons, List.nodup_cons] at hnd
      rcases List.mem_cons.mp hm with rfl | hm'
      · unfold lookup
        rw [List.find?_cons_of_pos _ (by simp)]
        rfl
      · have hne : p.1 ≠ k := by
          intro e
          exact hnd.1 (e ▸ List.mem_map.mpr ⟨(k, v), hm', rfl⟩)
        unfold lookup
        rw [List.find?_cons_of_neg _ (by simpa using hne)]
        exact ih hnd.2 hm'

/-- `lookup` in a list extended on the right, at a key other than the new
one, ignores the extension. -/
theorem lookup_append_single_ne {α : Type} {l : List (Nat × α)} {k k' : Nat} {v : α}
    (h : k' ≠ k) : lookup (l ++ [(k, v)]) k' = lookup l k' := by
  unfold lookup
  rw [List.find?_append]
  have h2 : List.find? (fun p => p.1 == k') [(k, v)] = none := by
    rw [List.find?_cons_of_neg _ (by simpa using fun e => h e.symm), List.find?_nil]
  rw [h2, Option.or_none]

/-- `lookup` into a list keyed by a function of its own index. -/
theorem lookup_map_key {α : Type} (l : List Nat) (g : Nat → α) (k : Nat) :
    lookup (l.map (fun i => (i, g i))) k = if k ∈ l then some (g k) else none := by
  induction l with
  | nil => simp [lookup]
  | cons x xs ih =>
      by_cases h : k = x
      · subst h
        unfold lookup
        rw [List.map_cons, List.find?_cons_of_pos _ (by simp)]
        simp
      · unfold lookup
        rw [List.map_cons, List.find?_cons_of_neg _ (by simpa using fun e => h e.symm)]
        unfold lookup at ih
        rw [ih]
        simp [List.mem_cons, h]

/-- `lookup` equation on the empty index. -/
theorem lookup_nil {α : Type} (k : Nat) : lookup ([] : List (Nat × α)) k = none := rfl

/-- `lookup` equation on a cons cell. -/
theorem lookup_cons {α : Type} (a : Nat) (b : α) (l : List (Nat × α)) (k : Nat) :
    lookup ((a, b) :: l) k = if a = k then some b else lookup l k := by
  by_cases h : a = k
  · unfold lookup
    rw [List.find?_cons_of_pos _ (by simpa using h), if_pos h]
    rfl
  · unfold lookup
    rw [List.find?_cons_of_neg _ (by simpa using h), if_neg h]

/-- `listMean` is `NaN` exactly on the empty series. -/
theorem listMean_eq_none_iff {l : List ℚ} : listMean l = none ↔ l = [] := by
  cases l <;> simp [listMean]

/-- A defined `listMean` is the arithmetic mean: it multiplies back up to
the sum by the length. -/
theorem listMean_spec {l : List ℚ} (h : l ≠ []) :
    ∃ m, listMean l = some m ∧ m * l.length = l.sum := by
  cases l with
  | nil => exact absurd rfl h
  | cons x xs =>
      refine ⟨(x :: xs).sum / (x :: xs).length, rfl, ?_⟩
      have hlen : ((x :: xs).length : ℚ) ≠ 0 := by
        have h0 : (x :: xs).length ≠ 0 := Nat.succ_ne_zero xs.length
        exact Nat.cast_ne_zero.mpr h0
      exact div_mul_cancel₀ _ hlen

/-- `listMean` only depends on the multiset of values. -/
theorem listMean_perm {l l' : List ℚ} (h : l.Perm l') : listMean l = listMean l' := by
  cases hl : l with
  | nil =>
      cases hl' : l' with
      | nil => rfl
      | cons y ys =>
          subst hl hl'
          exact absurd h.length_eq (by simp)
  | cons x xs =>
      cases hl' : l' with
      | nil =>
          subst hl hl'
          exact absurd h.length_eq (by simp)
      | cons y ys =>
          subst hl hl'
          show some _ = some _
          rw [h.sum_eq, h.length_eq]

/-- `skipnaMean` only depends on the multiset of entries. -/
theorem skipnaMean_perm {l l' : List (Option ℚ)} (h : l.Perm l') :
    skipnaMean l = skipnaMean l' :=
  listMean_perm (h.filterMap id)

/-- A leading `NaN` entry is skipped by `skipnaMean`. -/
theorem skipnaMean_cons_none (l : List (Option ℚ)) :
    skipnaMean (none :: l) = skipnaMean l := rfl

/-- `listMean` of a one-element series. -/
theorem listMean_singleton (x : ℚ) : listMean [x] = some x := by
  simp [listMean]

/-- The performance column is the union-aligned baseline-minus-actual
difference at the row's key. -/
theorem payoutRow_perf (bl : List (Nat × Option ℚ)) (agg : List (Nat × ℚ))
    (r : ℚ) (rates : List (Nat × ℚ)) (k : Nat) :
    (payoutRow bl agg r rates k).perf =
      match lookup bl k, lookup agg k with
      | some (some bv), some av => some (bv - av)
      | _, _ => none := rfl

/-- The customer share column is the revenue column scaled by the ratio. -/
theorem payoutRow_customerShare (bl : List (Nat × Option ℚ)) (agg : List (Nat × ℚ))
    (r : ℚ) (rates : List (Nat × ℚ)) (k : Nat) :
    (payoutRow bl agg r rates k).customerShare =
      (payoutRow bl agg r rates k).revenue.map (fun x => x * r) := rfl

/-- The Voltus share column is revenue minus customer share, `NaN`
propagating. -/
theorem payoutRow_voltusShare (bl : List (Nat × Option ℚ)) (agg : List (Nat × ℚ))
    (r : ℚ) (rates : List (Nat × ℚ)) (k : Nat) :
    (payoutRow bl agg r rates k).voltusShare =
      match (payoutRow bl agg r rates k).revenue,
          (payoutRow bl agg r rates k).customerShare with
      | some x, some y => some (x - y)
      | _, _ => none := rfl

/-- The revenue column prices the performance column and clamps at zero,
`NaN` propagating from a missing performance or price. -/
theorem payoutRow_revenue (bl : List (Nat × Option ℚ)) (agg : List (Nat × ℚ))
    (r : ℚ) (rates : List (Nat × ℚ)) (k : Nat) :
    (payoutRow bl agg r rates k).revenue =
      match (payoutRow bl agg r rates k).perf, lookup rates k with
      | some p, some pr => some (max (p * pr / 1000) 0)
      | _, _ => none := rfl

/-- Rows of `calculate_payouts` are exactly `payoutRow` at the row's key. -/
theorem mem_calculate_payouts {cs : List (Nat × ℚ)} {bl : List (Nat × Option ℚ)} {r : ℚ}
    {rates : List (Nat × ℚ)} {k : Nat} {row : PayoutRow}
    (h : (k, row) ∈ calculate_payouts cs bl r rates) :
    row = payoutRow bl (hourlyAgg cs) r rates k := by
  unfold calculate_payouts at h
  rcases List.mem_map.mp h with ⟨k', _, he⟩
  rw [Prod.mk.injEq] at he
  rw [← he.2, he.1]

/-- Closed form of a payout row when baseline, actual and price are all
present at the key. -/
theorem payoutRow_closed_form {bl : List (Nat × Option ℚ)} {agg : List (Nat × ℚ)}
    {r : ℚ} {rates : List (Nat × ℚ)} {k : Nat} {bv av pr : ℚ}
    (hb : lookup bl k = some (some bv)) (ha : lookup agg k = some av)
    (hp : lookup rates k = some pr) :
    payoutRow bl agg r rates k =
      ⟨some (bv - av), some (max ((bv - av) * pr / 1000) 0),
        some (max ((bv - av) * pr / 1000) 0 * r),
        some (max ((bv - av) * pr / 1000) 0 - max ((bv - av) * pr / 1000) 0 * r)⟩ := by
  unfold payoutRow
  rw [hb, ha, hp]
  rfl

/-- Closed form of a payout row when the price is missing at the key. -/
theorem payoutRow_closed_form_no_price {bl : List (Nat × Option ℚ)} {agg : List (Nat × ℚ)}
    {r : ℚ} {rates : List (Nat × ℚ)} {k : Nat} {bv av : ℚ}
    (hb : lookup bl k = some (some bv)) (ha : lookup agg k = some av)
    (hp : lookup rates k = none) :
    payoutRow bl agg r rates k = ⟨some (bv - av), none, none, none⟩ := by
  unfold payoutRow
  rw [hb, ha, hp]
  rfl

/-- `calculate_payouts` unfolded to its row map. -/
theorem calculate_payouts_eq_map (cs : List (Nat × ℚ)) (bl : List (Nat × Option ℚ))
    (r : ℚ) (rates : List (Nat × ℚ)) :
    calculate_payouts cs bl r rates =
      (sortedKeys (bl.map (fun p => p.1) ++ (hourlyAgg cs).map (fun p => p.1))).map
        (fun k => (k, payoutRow bl (hourlyAgg cs) r rates k)) := rfl

/-- A defined revenue value is always the result of the zero-clamp, hence
non-negative. -/
theorem payoutRow_revenue_nonneg {bl : List (Nat × Option ℚ)} {agg : List (Nat × ℚ)}
    {r : ℚ} {rates : List (Nat × ℚ)} {k : Nat} {v : ℚ}
    (hv : (payoutRow bl agg r rates k).revenue = some v) : 0 ≤ v := by
  rw [payoutRow_revenue] at hv
  rcases hp : (payoutRow bl agg r rates k).perf with _ | p <;> rw [hp] at hv <;>
    rcases hr : lookup rates k with _ | pr <;> rw [hr] at hv
  · exact Option.noConfusion hv
  · exact Option.noConfusion hv
  · exact Option.noConfusion hv
  · rw [← Option.some.inj hv]
    exact le_max_right _ _

/-- With a defined revenue `v`, the shares are `v * r` and `v - v * r`. -/
theorem payoutRow_shares_of_revenue_some {bl : List (Nat × Option ℚ)} {agg : List (Nat × ℚ)}
    {r : ℚ} {rates : List (Nat × ℚ)} {k : Nat} {v : ℚ}
    (hrev : (payoutRow bl agg r rates k).revenue = some v) :
    (payoutRow bl agg r rates k).customerShare = some (v * r) ∧
      (payoutRow bl agg r rates k).voltusShare = some (v - v * r) := by
  have hc : (payoutRow bl agg r rates k).customerShare = some (v * r) := by
    rw [payoutRow_customerShare, hrev]
    rfl
  refine ⟨hc, ?_⟩
  rw [payoutRow_voltusShare, hrev, hc]

/-- With `NaN` revenue, both shares are `NaN`. -/
theorem payoutRow_shares_of_revenue_none {bl : List (Nat × Option ℚ)} {agg : List (Nat × ℚ)}
    {r : ℚ} {rates : List (Nat × ℚ)} {k : Nat}
    (hrev : (payoutRow bl agg r rates k).revenue = none) :
    (payoutRow bl agg r rates k).customerShare = none ∧
      (payoutRow bl agg r rates k).voltusShare = none := by
  have hc : (payoutRow bl agg r rates k).customerShare = none := by
    rw [payoutRow_customerShare, hrev]
    rfl
  refine ⟨hc, ?_⟩
  rw [payoutRow_voltusShare, hrev, hc]

/-- Claim C9: for every interval series fully covering `k` whole hours at a
fixed sub-hourly cadence of `N` intervals per hour, the sum over all hour
buckets of the hourly aggregate equals the sum of all interval readings in
the source series (conservation of total). -/
theorem C9_hourly_aggregation_conserves_total (N kh : Nat) (t0 : Nat) (s : List (Nat × ℚ))
    (h : fullCadenceCoverage N kh t0 s) :
    ((hourlyAgg s).map (fun p => p.2)).sum = (s.map (fun p => p.2)).sum :=
  hourlyAgg_sum s

/-- Witness for C9 at a concrete 4-interval, one-hour series. -/
theorem C9_witness :
    fullCadenceCoverage 4 1 0 ([(0, 1), (15, 2), (30, 3), (45, 4)] : List (Nat × ℚ)) ∧
      ((hourlyAgg ([(0, 1), (15, 2), (30, 3), (45, 4)] : List (Nat × ℚ))).map
          (fun p => p.2)).sum =
        (([(0, 1), (15, 2), (30, 3), (45, 4)] : List (Nat × ℚ)).map (fun p => p.2)).sum :=
  ⟨by decide, C9_hourly_aggregation_conserves_total 4 1 0 _ (by decide)⟩

/-- Claim C1 (amended): per-hour revenue is `max(0, performance/1000 × price)`
whenever performance and price are both defined, so any defined revenue is
non-negative; and when the hour's price is present and non-negative, a
negative performance yields revenue exactly 0.  (The unamended claim fails
when the price schedule carries a negative price: see the counterexample.) -/
theorem C1_revenue_clamp (cs : List (Nat × ℚ)) (bl : List (Nat × Option ℚ)) (r : ℚ)
    (rates : List (Nat × ℚ)) (k : Nat) (row : PayoutRow)
    (hmem : (k, row) ∈ calculate_payouts cs bl r rates) :
    (∀ v, row.revenue = some v → 0 ≤ v) ∧
      (∀ p pr, row.perf = some p → lookup rates k = some pr →
        row.revenue = some (max 0 (p / 1000 * pr)) ∧
          (p < 0 → 0 ≤ pr → row.revenue = some 0)) := by
  have hrow := mem_calculate_payouts hmem
  subst hrow
  refine ⟨fun v hv => payoutRow_revenue_nonneg hv, ?_⟩
  intro p pr hp hpr
  have hrev : (payoutRow bl (hourlyAgg cs) r rates k).revenue =
      some (max (p * pr / 1000) 0) := by
    rw [payoutRow_revenue, hp, hpr]
  constructor
  · rw [hrev]
    have he : p * pr / 1000 = p / 1000 * pr := by ring
    rw [he, max_comm]
  · intro hneg hnn
    rw [hrev]
    have hle : p * pr / 1000 ≤ 0 := by
      apply div_nonpos_iff.mpr
      exact Or.inr ⟨mul_nonpos_iff.mpr (Or.inr ⟨le_of_lt hneg, hnn⟩), by norm_num⟩
    rw [max_eq_right hle]

/-- Counterexample to claim C1 as stated: with a negative price (−1000) for
an hour whose performance is −500, the computed revenue is 500, not 0. -/
theorem C1_counterexample :
    ∃ x ∈ calculate_payouts [(0, 500)] [(0, some 0)] (1 / 2) [(0, -1000)],
      (∃ q, x.2.perf = some q ∧ q < 0) ∧ x.2.revenue ≠ some 0 := by
  have heval : calculate_payouts [(0, 500)] [(0, some 0)] (1 / 2) [(0, -1000)] =
      [(0, ⟨some (-500), some 500, some 250, some 250⟩)] := by
    rw [calculate_payouts_eq_map]
    have hagg : hourlyAgg [(0, (500 : ℚ))] = [(0, 500)] := by
      norm_num [hourlyAgg, sortedKeys, insertKey, groupSum, floorHour]
    rw [hagg]
    have hb : lookup [((0 : Nat), some (0 : ℚ))] 0 = some (some 0) := by simp [lookup_cons]
    have ha : lookup [((0 : Nat), (500 : ℚ))] 0 = some 500 := by simp [lookup_cons]
    have hp : lookup [((0 : Nat), (-1000 : ℚ))] 0 = some (-1000) := by simp [lookup_cons]
    have hkeys : sortedKeys ([((0 : Nat), some (0 : ℚ))].map (fun p => p.1) ++
        [((0 : Nat), (500 : ℚ))].map (fun p => p.1)) = [0] := by decide
    rw [hkeys, List.map_cons, List.map_nil, payoutRow_closed_form hb ha hp]
    norm_num [max_def]
  rw [heval]
  refine ⟨(0, ⟨some (-500), some 500, some 250, some 250⟩),
    List.mem_singleton.mpr rfl, ⟨-500, rfl, by norm_num⟩, ?_⟩
  intro h
  exact absurd (Option.some.inj h) (by norm_num)

/-- Witness for C1 at a concrete priced hour. -/
theorem C1_witness :
    ((0, (⟨some (-500), some 0, some 0, some 0⟩ : PayoutRow)) ∈
        calculate_payouts [(0, 500)] [(0, some 0)] (1 / 2) [(0, 1500)]) ∧
      ((∀ v, (⟨some (-500), some 0, some 0, some 0⟩ : PayoutRow).revenue = some v → 0 ≤ v) ∧
        (∀ p pr, (⟨some (-500), some 0, some 0, some 0⟩ : PayoutRow).perf = some p →
          lookup [(0, 1500)] 0 = some pr →
          (⟨some (-500), some 0, some 0, some 0⟩ : PayoutRow).revenue =
              some (max 0 (p / 1000 * pr)) ∧
            (p < 0 → 0 ≤ pr →
              (⟨some (-500), some 0, some 0, some 0⟩ : PayoutRow).revenue = some 0))) := by
  have heval : calculate_payouts [(0, 500)] [(0, some 0)] (1 / 2) [(0, 1500)] =
      [(0, ⟨some (-500), some 0, some 0, some 0⟩)] := by
    rw [calculate_payouts_eq_map]
    have hagg : hourlyAgg [(0, (500 : ℚ))] = [(0, 500)] := by
      norm_num [hourlyAgg, sortedKeys, insertKey, groupSum, floorHour]
    rw [hagg]
    have hb : lookup [((0 : Nat), some (0 : ℚ))] 0 = some (some 0) := by simp [lookup_cons]
    have ha : lookup [((0 : Nat), (500 : ℚ))] 0 = some 500 := by simp [lookup_cons]
    have hp : lookup [((0 : Nat), (1500 : ℚ))] 0 = some 1500 := by simp [lookup_cons]
    have hkeys : sortedKeys ([((0 : Nat), some (0 : ℚ))].map (fun p => p.1) ++
        [((0 : Nat), (500 : ℚ))].map (fun p => p.1)) = [0] := by decide
    rw [hkeys, List.map_cons, List.map_nil, payoutRow_closed_form hb ha hp]
    norm_num [max_def]
  have hmem : ((0 : Nat), (⟨some (-500), some 0, some 0, some 0⟩ : PayoutRow)) ∈
      calculate_payouts [(0, 500)] [(0, some 0)] (1 / 2) [(0, 1500)] := by
    rw [heval]
    exact List.mem_singleton.mpr rfl
  exact ⟨hmem, C1_revenue_clamp [(0, 500)] [(0, some 0)] (1 / 2) [(0, 1500)] 0
    ⟨some (-500), some 0, some 0, some 0⟩ hmem⟩

/-- Claim C2: per-hour customer share is `revenue × r` and aggregator share
is `revenue − customer share`, so the two sum exactly to the revenue; at
the boundaries `r = 0` the aggregator takes all and `r = 1` the customer
takes all (share values are stated for hours with a defined revenue; a
`NaN` revenue propagates `NaN` to both shares, whose `NaN`-sum is again the
`NaN` revenue). -/
theorem C2_share_complement (cs : List (Nat × ℚ)) (bl : List (Nat × Option ℚ)) (r : ℚ)
    (rates : List (Nat × ℚ)) (hr0 : 0 ≤ r) (hr1 : r ≤ 1) (k : Nat) (row : PayoutRow)
    (hmem : (k, row) ∈ calculate_payouts cs bl r rates) :
    oadd row.customerShare row.voltusShare = row.revenue ∧
      (∀ v, row.revenue = some v →
        row.customerShare = some (v * r) ∧ row.voltusShare = some (v - v * r)) ∧
      (r = 0 → ∀ v, row.revenue = some v →
        row.customerShare = some 0 ∧ row.voltusShare = some v) ∧
      (r = 1 → ∀ v, row.revenue = some v →
        row.customerShare = some v ∧ row.voltusShare = some 0) := by
  have hrow := mem_calculate_payouts hmem
  subst hrow
  rcases hrev : (payoutRow bl (hourlyAgg cs) r rates k).revenue with _ | v
  · obtain ⟨hc, hw⟩ := payoutRow_shares_of_revenue_none hrev
    rw [hc, hw]
    refine ⟨rfl, ?_, ?_, ?_⟩
    · intro v hv
      exact Option.noConfusion hv
    · intro _ v hv
      exact Option.noConfusion hv
    · intro _ v hv
      exact Option.noConfusion hv
  · obtain ⟨hc, hw⟩ := payoutRow_shares_of_revenue_some hrev
    rw [hc, hw]
    refine ⟨?_, ?_, ?_, ?_⟩
    · show some (v * r + (v - v * r)) = some v
      congr 1
      ring
    · intro v' hv'
      rw [← Option.some.inj hv']
      exact ⟨rfl, rfl⟩
    · intro hr v' hv'
      subst hr
      rw [← Option.some.inj hv']
      constructor
      · rw [mul_zero]
      · rw [mul_zero, sub_zero]
    · intro hr v' hv'
      subst hr
      rw [← Option.some.inj hv']
      constructor
      · rw [mul_one]
      · rw [mul_one, sub_self]

/-- Witness for C2 at a concrete priced hour with `r = 1/2`. -/
theorem C2_witness :
    (0 ≤ (1 / 2 : ℚ)) ∧ ((1 / 2 : ℚ) ≤ 1) ∧
      ((0, (⟨some 200, some 300, some 150, some 150⟩ : PayoutRow)) ∈
        calculate_payouts [(0, 800)] [(0, some 1000)] (1 / 2) [(0, 1500)]) ∧
      (oadd (⟨some 200, some 300, some 150, some 150⟩ : PayoutRow).customerShare
          (⟨some 200, some 300, some 150, some 150⟩ : PayoutRow).voltusShare =
        (⟨some 200, some 300, some 150, some 150⟩ : PayoutRow).revenue ∧
        (∀ v, (⟨some 200, some 300, some 150, some 150⟩ : PayoutRow).revenue = some v →
          (⟨some 200, some 300, some 150, some 150⟩ : PayoutRow).customerShare =
              some (v * (1 / 2)) ∧
            (⟨some 200, some 300, some 150, some 150⟩ : PayoutRow).voltusShare =
              some (v - v * (1 / 2))) ∧
        ((1 / 2 : ℚ) = 0 → ∀ v,
          (⟨some 200, some 300, some 150, some 150⟩ : PayoutRow).revenue = some v →
          (⟨some 200, some 300, some 150, some 150⟩ : PayoutRow).customerShare = some 0 ∧
            (⟨some 200, some 300, some 150, some 150⟩ : PayoutRow).voltusShare = some v) ∧
        ((1 / 2 : ℚ) = 1 → ∀ v,
          (⟨some 200, some 300, some 150, some 150⟩ : PayoutRow).revenue = some v →
          (⟨some 200, some 300, some 150, some 150⟩ : PayoutRow).customerShare = some v ∧
            (⟨some 200, some 300, some 150, some 150⟩ : PayoutRow).voltusShare = some 0)) := by
  have heval : calculate_payouts [(0, 800)] [(0, some 1000)] (1 / 2) [(0, 1500)] =
      [(0, ⟨some 200, some 300, some 150, some 150⟩)] := by
    rw [calculate_payouts_eq_map]
    have hagg : hourlyAgg [(0, (800 : ℚ))] = [(0, 800)] := by
      norm_num [hourlyAgg, sortedKeys, insertKey, groupSum, floorHour]
    rw [hagg]
    have hb : lookup [((0 : Nat), some (1000 : ℚ))] 0 = some (some 1000) := by
      simp [lookup_cons]
    have ha : lookup [((0 : Nat), (800 : ℚ))] 0 = some 800 := by simp [lookup_cons]
    have hp : lookup [((0 : Nat), (1500 : ℚ))] 0 = some 1500 := by simp [lookup_cons]
    have hkeys : sortedKeys ([((0 : Nat), some (1000 : ℚ))].map (fun p => p.1) ++
        [((0 : Nat), (800 : ℚ))].map (fun p => p.1)) = [0] := by decide
    rw [hkeys, List.map_cons, List.map_nil, payoutRow_closed_form hb ha hp]
    norm_num [max_def]
  have hmem : ((0 : Nat), (⟨some 200, some 300, some 150, some 150⟩ : PayoutRow)) ∈
      calculate_payouts [(0, 800)] [(0, some 1000)] (1 / 2) [(0, 1500)] := by
    rw [heval]
    exact List.mem_singleton.mpr rfl
  exact ⟨by norm_num, by norm_num, hmem,
    C2_share_complement [(0, 800)] [(0, some 1000)] (1 / 2) [(0, 1500)] (by norm_num)
      (by norm_num) 0 ⟨some 200, some 300, some 150, some 150⟩ hmem⟩

/-- Claim C10 (implicit): for every event hour and ratio `r ∈ [0, 1]`, every
defined customer share and every defined Voltus share is non-negative —
the zero-clamp on revenue propagates to both shares. -/
theorem C10_shares_nonneg (cs : List (Nat × ℚ)) (bl : List (Nat × Option ℚ)) (r : ℚ)
    (rates : List (Nat × ℚ)) (hr0 : 0 ≤ r) (hr1 : r ≤ 1) (k : Nat) (row : PayoutRow)
    (hmem : (k, row) ∈ calculate_payouts cs bl r rates) :
    (∀ c, row.customerShare = some c → 0 ≤ c) ∧
      (∀ w, row.voltusShare = some w → 0 ≤ w) := by
  have hrow := mem_calculate_payouts hmem
  subst hrow
  rcases hrev : (payoutRow bl (hourlyAgg cs) r rates k).revenue with _ | v
  · obtain ⟨hc, hw⟩ := payoutRow_shares_of_revenue_none hrev
    constructor
    · intro c hcx
      rw [hc] at hcx
      exact Option.noConfusion hcx
    · intro w hwx
      rw [hw] at hwx
      exact Option.noConfusion hwx
  · have hv : 0 ≤ v := payoutRow_revenue_nonneg hrev
    obtain ⟨hc, hw⟩ := payoutRow_shares_of_revenue_some hrev
    constructor
    · intro c hcx
      rw [hc] at hcx
      rw [← Option.some.inj hcx]
      exact mul_nonneg hv hr0
    · intro w hwx
      rw [hw] at hwx
      rw [← Option.some.inj hwx]
      have he : v - v * r = v * (1 - r) := by ring
      rw [he]
      exact mul_nonneg hv (by linarith)

/-- Witness for C10 at a concrete priced hour with `r = 1/2`. -/
theorem C10_witness :
    (0 ≤ (1 / 2 : ℚ)) ∧ ((1 / 2 : ℚ) ≤ 1) ∧
      ((0, (⟨some 200, some 300, some 150, some 150⟩ : PayoutRow)) ∈
        calculate_payouts [(0, 800)] [(0, some 1000)] (1 / 2) [(0, 1500)]) ∧
      ((∀ c, (⟨some 200, some 300, some 150, some 150⟩ : PayoutRow).customerShare =
          some c → 0 ≤ c) ∧
        (∀ w, (⟨some 200, some 300, some 150, some 150⟩ : PayoutRow).voltusShare =
          some w → 0 ≤ w)) := by
  have heval : calculate_payouts [(0, 800)] [(0, some 1000)] (1 / 2) [(0, 1500)] =
      [(0, ⟨some 200, some 300, some 150, some 150⟩)] := by
    rw [calculate_payouts_eq_map]
    have hagg : hourlyAgg [(0, (800 : ℚ))] = [(0, 800)] := by
      norm_num [hourlyAgg, sortedKeys, insertKey, groupSum, floorHour]
    rw [hagg]
    have hb : lookup [((0 : Nat), some (1000 : ℚ))] 0 = some (some 1000) := by
      simp [lookup_cons]
    have ha : lookup [((0 : Nat), (800 : ℚ))] 0 = some 800 := by simp [lookup_cons]
    have hp : lookup [((0 : Nat), (1500 : ℚ))] 0 = some 1500 := by simp [lookup_cons]
    have hkeys : sortedKeys ([((0 : Nat), some (1000 : ℚ))].map (fun p => p.1) ++
        [((0 : Nat), (800 : ℚ))].map (fun p => p.1)) = [0] := by decide
    rw [hkeys, List.map_cons, List.map_nil, payoutRow_closed_form hb ha hp]
    norm_num [max_def]
  have hmem : ((0 : Nat), (⟨some 200, some 300, some 150, some 150⟩ : PayoutRow)) ∈
      calculate_payouts [(0, 800)] [(0, some 1000)] (1 / 2) [(0, 1500)] := by
    rw [heval]
    exact List.mem_singleton.mpr rfl
  exact ⟨by norm_num, by norm_num, hmem,
    C10_shares_nonneg [(0, 800)] [(0, some 1000)] (1 / 2) [(0, 1500)] (by norm_num)
      (by norm_num) 0 ⟨some 200, some 300, some 150, some 150⟩ hmem⟩

/-- Claim C7 (amended): when the price schedule lacks an entry for an event
hour, the payout calculation does not raise and does not treat the price as
zero — the hour's revenue and both shares are `NaN` (undefined). -/
theorem C7_missing_price_gives_nan (cs : List (Nat × ℚ)) (bl : List (Nat × Option ℚ))
    (r : ℚ) (rates : List (Nat × ℚ)) (k : Nat) (row : PayoutRow)
    (hmem : (k, row) ∈ calculate_payouts cs bl r rates)
    (hmiss : lookup rates k = none) :
    row.revenue = none ∧ row.customerShare = none ∧ row.voltusShare = none := by
  have hrow := mem_calculate_payouts hmem
  subst hrow
  have hrev : (payoutRow bl (hourlyAgg cs) r rates k).revenue = none := by
    rw [payoutRow_revenue, hmiss]
    rcases hp : (payoutRow bl (hourlyAgg cs) r rates k).perf with _ | p <;> rfl
  obtain ⟨hc, hw⟩ := payoutRow_shares_of_revenue_none hrev
  exact ⟨hrev, hc, hw⟩

/-- Counterexample to claim C7 as stated: with an empty price schedule and a
defined performance of 100 at hour 0, `calculate_payouts` completes and
returns a `NaN` revenue row instead of failing. -/
theorem C7_counterexample :
    calculate_payouts [(0, 100)] [(0, some 200)] (1 / 2) [] =
        [(0, ⟨some 100, none, none, none⟩)] ∧
      (none : Option ℚ) ≠ some 0 := by
  refine ⟨?_, by simp⟩
  rw [calculate_payouts_eq_map]
  have hagg : hourlyAgg [(0, (100 : ℚ))] = [(0, 100)] := by
    norm_num [hourlyAgg, sortedKeys, insertKey, groupSum, floorHour]
  rw [hagg]
  have hb : lookup [((0 : Nat), some (200 : ℚ))] 0 = some (some 200) := by simp [lookup_cons]
  have ha : lookup [((0 : Nat), (100 : ℚ))] 0 = some 100 := by simp [lookup_cons]
  have hp : lookup ([] : List (Nat × ℚ)) 0 = none := rfl
  have hkeys : sortedKeys ([((0 : Nat), some (200 : ℚ))].map (fun p => p.1) ++
      [((0 : Nat), (100 : ℚ))].map (fun p => p.1)) = [0] := by decide
  rw [hkeys, List.map_cons, List.map_nil, payoutRow_closed_form_no_price hb ha hp]
  norm_num

/-- Witness for C7 at the same concrete unpriced hour. -/
theorem C7_witness :
    ((0, (⟨some 100, none, none, none⟩ : PayoutRow)) ∈
        calculate_payouts [(0, 100)] [(0, some 200)] (1 / 2) []) ∧
      lookup ([] : List (Nat × ℚ)) 0 = none ∧
      ((⟨some 100, none, none, none⟩ : PayoutRow).revenue = none ∧
        (⟨some 100, none, none, none⟩ : PayoutRow).customerShare = none ∧
        (⟨some 100, none, none, none⟩ : PayoutRow).voltusShare = none) := by
  have heval : calculate_payouts [(0, 100)] [(0, some 200)] (1 / 2) [] =
      [(0, ⟨some 100, none, none, none⟩)] := by
    rw [calculate_payouts_eq_map]
    have hagg : hourlyAgg [(0, (100 : ℚ))] = [(0, 100)] := by
      norm_num [hourlyAgg, sortedKeys, insertKey, groupSum, floorHour]
    rw [hagg]
    have hb : lookup [((0 : Nat), some (200 : ℚ))] 0 = some (some 200) := by
      simp [lookup_cons]
    have ha : lookup [((0 : Nat), (100 : ℚ))] 0 = some 100 := by simp [lookup_cons]
    have hp : lookup ([] : List (Nat × ℚ)) 0 = none := rfl
    have hkeys : sortedKeys ([((0 : Nat), some (200 : ℚ))].map (fun p => p.1) ++
        [((0 : Nat), (100 : ℚ))].map (fun p => p.1)) = [0] := by decide
    rw [hkeys, List.map_cons, List.map_nil, payoutRow_closed_form_no_price hb ha hp]
    norm_num
  have hmem : ((0 : Nat), (⟨some 100, none, none, none⟩ : PayoutRow)) ∈
      calculate_payouts [(0, 100)] [(0, some 200)] (1 / 2) [] := by
    rw [heval]
    exact List.mem_singleton.mpr rfl
  exact ⟨hmem, rfl,
    C7_missing_price_gives_nan [(0, 100)] [(0, some 200)] (1 / 2) [] 0
      ⟨some 100, none, none, none⟩ hmem rfl⟩

/-- `updateAt` equation on a cons cell. -/
theorem updateAt_cons (p : Nat × ℚ) (l : List (Nat × ℚ)) (t : Nat) (v : ℚ) :
    updateAt (p :: l) t v =
      (if p.1 = t then ((t, v) : Nat × ℚ) else p) :: updateAt l t v := rfl

/-- Filtering on timestamps commutes with changing the reading at one
timestamp, since the filter only inspects timestamps. -/
theorem filter_updateAt (l : List (Nat × ℚ)) (t : Nat) (v : ℚ) (q : Nat → Bool) :
    (updateAt l t v).filter (fun p => q p.1) = updateAt (l.filter (fun p => q p.1)) t v := by
  induction l with
  | nil => rfl
  | cons p ps ih =>
      rw [updateAt_cons]
      by_cases h : p.1 = t
      · rw [if_pos h]
        by_cases hq : q t
        · rw [List.filter_cons_of_pos (by simpa using hq),
            List.filter_cons_of_pos (by simpa [h] using hq), ih, updateAt_cons, if_pos h]
        · rw [List.filter_cons_of_neg (by simpa using hq),
            List.filter_cons_of_neg (by simpa [h] using hq), ih]
      · rw [if_neg h]
        by_cases hq : q p.1
        · rw [List.filter_cons_of_pos (by simpa using hq),
            List.filter_cons_of_pos (by simpa using hq), ih, updateAt_cons, if_neg h]
        · rw [List.filter_cons_of_neg (by simpa using hq),
            List.filter_cons_of_neg (by simpa using hq), ih]

/-- Changing the reading at a timestamp that does not occur in the series
changes nothing. -/
theorem updateAt_eq_of_not_mem {l : List (Nat × ℚ)} {t : Nat} {v : ℚ}
    (h : ∀ p ∈ l, p.1 ≠ t) : updateAt l t v = l := by
  unfold updateAt
  conv_rhs => rw [← List.map_id l]
  apply List.map_congr_left
  intro p hp
  rw [if_neg (h p hp)]
  rfl

/-- The historical window commutes with an outlier injection. -/
theorem tenDayWindow_updateAt (data : List (Nat × ℚ)) (es ee t : Nat) (v : ℚ) :
    tenDayWindow (updateAt data t v) es ee = updateAt (tenDayWindow data es ee) t v := by
  have h1 : (updateAt data t v).filter
        (fun p => subBDays es 10 ≤ p.1 && p.1 ≤ subBDays ee 1) =
      updateAt (data.filter (fun p => subBDays es 10 ≤ p.1 && p.1 ≤ subBDays ee 1)) t v :=
    filter_updateAt data t v (fun u => subBDays es 10 ≤ u && u ≤ subBDays ee 1)
  have h2 : ∀ l : List (Nat × ℚ), (updateAt l t v).filter (fun p => dayOfWeek p.1 < 5) =
      updateAt (l.filter (fun p => dayOfWeek p.1 < 5)) t v :=
    fun l => filter_updateAt l t v (fun u => dayOfWeek u < 5)
  unfold tenDayWindow
  rw [h1, h2]

/-- The historical window distributes over appending readings. -/
theorem tenDayWindow_append (data l : List (Nat × ℚ)) (es ee : Nat) :
    tenDayWindow (data ++ l) es ee = tenDayWindow data es ee ++ tenDayWindow l es ee := by
  unfold tenDayWindow
  rw [List.filter_append, List.filter_append]

/-- Unpacking membership in the historical window: the reading is from the
original series, lies in the 10-business-day `.loc` slice, and sits on a
weekday. -/
theorem mem_tenDayWindow {data : List (Nat × ℚ)} {es ee : Nat} {p : Nat × ℚ}
    (hp : p ∈ tenDayWindow data es ee) :
    p ∈ data ∧ (subBDays es 10 ≤ p.1 ∧ p.1 ≤ subBDays ee 1) ∧ dayOfWeek p.1 < 5 := by
  unfold tenDayWindow at hp
  rw [List.mem_filter] at hp
  obtain ⟨h1, h2⟩ := hp
  rw [List.mem_filter] at h1
  obtain ⟨h0, h3⟩ := h1
  simp only [Bool.and_eq_true, decide_eq_true_eq] at h2 h3
  exact ⟨h0, h3, h2⟩

/-- The baselines only depend on the series through the historical window. -/
theorem get10of10_congr_window {data data' : List (Nat × ℚ)} {es ee : Nat}
    (h : tenDayWindow data es ee = tenDayWindow data' es ee) :
    get_10of10_baselines data es ee = get_10of10_baselines data' es ee := by
  simp only [get_10of10_baselines, historicalHourTotals, h]

/-- A timestamp on a weekend, or on a day outside the ten business days
2022-05-31 … 2022-06-13, never occurs in the default event's historical
window. -/
theorem not_in_tenDayWindow_default {t : Nat}
    (hyp : 5 ≤ dayOfWeek t ∨ t / 1440 ∉ tenBusinessDays) :
    ∀ (data : List (Nat × ℚ)) (p : Nat × ℚ),
      p ∈ tenDayWindow data event_start_default event_end_default → p.1 ≠ t := by
  intro data p hp hpt
  obtain ⟨-, ⟨hlo, hhi⟩, hdw⟩ := mem_tenDayWindow hp
  rw [hpt] at hlo hhi hdw
  have e1 : subBDays event_start_default 10 = 2280 := by decide
  have e2 : subBDays event_end_default 1 = 21180 := by decide
  rw [e1] at hlo
  rw [e2] at hhi
  unfold dayOfWeek at hdw
  rcases hyp with h' | h'
  · unfold dayOfWeek at h'
    omega
  · simp only [tenBusinessDays, List.mem_cons, List.not_mem_nil, or_false] at h'
    push_neg at h'
    omega

/-- Membership in the hourly stepping list. -/
theorem mem_hourRangeAux {n : Nat} {a k : Nat} :
    k ∈ hourRangeAux a n ↔ ∃ i < n, k = a + 60 * i := by
  induction n generalizing a with
  | zero => simp [hourRangeAux]
  | succ n ih =>
      rw [hourRangeAux, List.mem_cons, ih]
      constructor
      · rintro (rfl | ⟨i, hi, rfl⟩)
        · exact ⟨0, by omega, by omega⟩
        · exact ⟨i + 1, by omega, by omega⟩
      · rintro ⟨i, hi, rfl⟩
        cases i with
        | zero => left; omega
        | succ j => right; exact ⟨j, by omega, by omega⟩

/-- Membership in `hourRange`: the hour steps from `a` up to and including
`b` are exactly the timestamps between the two bounds at a whole number of
hours from `a`. -/
theorem mem_hourRange {a b k : Nat} :
    k ∈ hourRange a b ↔ a ≤ k ∧ k ≤ b ∧ (k - a) % 60 = 0 := by
  unfold hourRange
  by_cases hab : a ≤ b
  · rw [if_pos hab, mem_hourRangeAux]
    constructor
    · rintro ⟨i, hi, rfl⟩
      omega
    · rintro ⟨h1, h2, h3⟩
      exact ⟨(k - a) / 60, by omega, by omega⟩
  · rw [if_neg hab]
    simp only [List.not_mem_nil, false_iff]
    omega

/-- The index of the baseline series is exactly `hourRange`. -/
theorem get10of10_keys (data : List (Nat × ℚ)) (es ee : Nat) :
    (get_10of10_baselines data es ee).map (fun p => p.1) = hourRange es ee := by
  unfold get_10of10_baselines
  rw [List.map_map]
  exact List.map_id _

/-- Looking up an event hour in the baseline series yields the mean of the
matching historical hourly totals. -/
theorem lookup_get10of10 (data : List (Nat × ℚ)) (es ee k : Nat) (hk : k ∈ hourRange es ee) :
    lookup (get_10of10_baselines data es ee) k =
      some (listMean (historicalHourTotals data es ee (hourOfDay k))) := by
  unfold get_10of10_baselines
  rw [lookup_map_key (hourRange es ee)
    (fun i => listMean (historicalHourTotals data es ee (hourOfDay i))) k, if_pos hk]

/-- Claim C3: the 10-of-10 baseline of the default event is computed only
from readings on the 10 most recent business days strictly preceding the
event day.  `tenBusinessDays` (days since Monday 2022-05-30) is exactly the
last 10 weekday day-numbers before the event day 15 (= 2022-06-14); and for
every historical series, changing — or injecting — a reading at any
timestamp on a weekend or outside those ten days leaves the computed
baseline unchanged. -/
theorem C3_weekend_and_window_exclusion :
    tenBusinessDays =
        (((List.range 15).filter (fun d => d % 7 < 5)).reverse.take 10).reverse ∧
      (∀ (data : List (Nat × ℚ)) (t : Nat) (v : ℚ),
        5 ≤ dayOfWeek t ∨ t / 1440 ∉ tenBusinessDays →
        get_10of10_baselines (updateAt data t v) event_start_default event_end_default =
          get_10of10_baselines data event_start_default event_end_default) ∧
      (∀ (data : List (Nat × ℚ)) (t : Nat) (v : ℚ),
        5 ≤ dayOfWeek t ∨ t / 1440 ∉ tenBusinessDays →
        get_10of10_baselines (data ++ [(t, v)]) event_start_default event_end_default =
          get_10of10_baselines data event_start_default event_end_default) := by
  refine ⟨by decide, ?_, ?_⟩
  · intro data t v hyp
    apply get10of10_congr_window
    rw [tenDayWindow_updateAt,
      updateAt_eq_of_not_mem (not_in_tenDayWindow_default hyp data)]
  · intro data t v hyp
    apply get10of10_congr_window
    rw [tenDayWindow_append]
    have hsing : tenDayWindow [(t, v)] event_start_default event_end_default = [] := by
      rcases hx : tenDayWindow [(t, v)] event_start_default event_end_default with _ | ⟨q, l⟩
      · rfl
      · exfalso
        have hq : q ∈ tenDayWindow [(t, v)] event_start_default event_end_default := by
          rw [hx]
          exact List.mem_cons_self _ _
        have hq1 : q.1 = t := by
          have := (mem_tenDayWindow hq).1
          rw [List.mem_singleton] at this
          rw [this]
        exact not_in_tenDayWindow_default hyp [(t, v)] q hq hq1
    rw [hsing, List.append_nil]

/-- Witness for C3: injecting the outlier 999999 at Saturday 2022-06-04
00:00 (minute 7200) does not change the default event's baselines for the
series with one reading on Monday 2022-06-13 14:00. -/
theorem C3_witness :
    (5 ≤ dayOfWeek 7200 ∨ 7200 / 1440 ∉ tenBusinessDays) ∧
      get_10of10_baselines (updateAt [(21000, 1000)] 7200 999999) event_start_default
          event_end_default =
        get_10of10_baselines [(21000, 1000)] event_start_default event_end_default :=
  ⟨by decide, C3_weekend_and_window_exclusion.2.1 [(21000, 1000)] 7200 999999 (by decide)⟩

/-- Claim C4 (amended): the baseline series is keyed by exactly the hour
timestamps of the closed range `[event_start, event_end]` — both endpoints
included, matching `pd.date_range`, so a 14:00–17:00 event yields keys
14:00, 15:00, 16:00 and 17:00 — and each key maps to the mean of the
historical hourly totals whose hour-of-day matches it.  (The unamended
claim asserts the half-open range `[start, end)`: see the
counterexample.) -/
theorem C4_baseline_keys_closed_range (data : List (Nat × ℚ)) (es ee : Nat) :
    (∀ k, k ∈ (get_10of10_baselines data es ee).map (fun p => p.1) ↔
        es ≤ k ∧ k ≤ ee ∧ (k - es) % 60 = 0) ∧
      (∀ k, es ≤ k → k ≤ ee → (k - es) % 60 = 0 →
        lookup (get_10of10_baselines data es ee) k =
          some (listMean (historicalHourTotals data es ee (hourOfDay k)))) := by
  constructor
  · intro k
    rw [get10of10_keys, mem_hourRange]
  · intro k h1 h2 h3
    exact lookup_get10of10 data es ee k (mem_hourRange.mpr ⟨h1, h2, h3⟩)

/-- Counterexample to claim C4 as stated: for the default 14:00–17:00
event, the claim's half-open key range would force every key strictly below
17:00 (minute 22620), but 22620 itself is a key of the returned series. -/
theorem C4_counterexample :
    ¬(∀ k ∈ (get_10of10_baselines [] event_start_default event_end_default).map
        (fun p => p.1), k < event_end_default) := by
  intro h
  have h2 := h 22620 (by decide)
  exact absurd h2 (by decide)

/-- Witness for C4 at the event-end key of the default event window. -/
theorem C4_witness :
    (event_start_default ≤ 22620 ∧ 22620 ≤ event_end_default ∧
        (22620 - event_start_default) % 60 = 0) ∧
      lookup (get_10of10_baselines [] event_start_default event_end_default) 22620 =
        some (listMean (historicalHourTotals [] event_start_default event_end_default
          (hourOfDay 22620))) :=
  ⟨by decide,
    (C4_baseline_keys_closed_range [] event_start_default event_end_default).2 22620
      (by decide) (by decide) (by decide)⟩

/-- Claim C6 (amended): when an hour-of-day in the event range has no
readings in the filtered historical window, the baseline entry for that
hour is `NaN` — the mean of an empty selection — and the calculation
completes and returns it rather than failing; an entry is `NaN` exactly
when its hour-of-day has no historical hourly totals. -/
theorem C6_empty_hour_gives_nan (data : List (Nat × ℚ)) (es ee : Nat) (p : Nat × Option ℚ)
    (hp : p ∈ get_10of10_baselines data es ee) :
    (p.2 = none ↔ historicalHourTotals data es ee (hourOfDay p.1) = []) := by
  unfold get_10of10_baselines at hp
  rcases List.mem_map.mp hp with ⟨i, -, rfl⟩
  exact listMean_eq_none_iff

/-- Counterexample to claim C6 as stated: a historical series with one
reading at Monday 2022-06-13 14:00 (minute 21000) has no data for the
event's hours 15:00–17:00, yet `get_10of10_baselines` returns normally,
with `NaN` entries for those hours instead of failing. -/
theorem C6_counterexample :
    get_10of10_baselines [(21000, 1000)] event_start_default event_end_default =
      [(22440, some 1000), (22500, none), (22560, none), (22620, none)] := by
  have hwin : tenDayWindow [(21000, (1000 : ℚ))] event_start_default event_end_default =
      [(21000, 1000)] := by decide
  have hagg : hourlyAgg [(21000, (1000 : ℚ))] = [(21000, 1000)] := by
    norm_num [hourlyAgg, sortedKeys, insertKey, groupSum, floorHour]
  have hrange : hourRange event_start_default event_end_default =
      [22440, 22500, 22560, 22620] := by decide
  unfold get_10of10_baselines historicalHourTotals
  simp only [hwin, hagg, hrange]
  norm_num [hourOfDay, List.filter, listMean_singleton, listMean]
  decide

/-- Witness for C6 at the concrete gap series: the 15:00 entry is `NaN` and
its hour-of-day has no historical totals. -/
theorem C6_witness :
    ((22500, (none : Option ℚ)) ∈
        get_10of10_baselines [(21000, 1000)] event_start_default event_end_default) ∧
      (((22500 : Nat), (none : Option ℚ)).2 = none ↔
        historicalHourTotals [(21000, 1000)] event_start_default event_end_default
          (hourOfDay ((22500 : Nat), (none : Option ℚ)).1) = []) := by
  have hwin : tenDayWindow [(21000, (1000 : ℚ))] event_start_default event_end_default =
      [(21000, 1000)] := by decide
  have hagg : hourlyAgg [(21000, (1000 : ℚ))] = [(21000, 1000)] := by
    norm_num [hourlyAgg, sortedKeys, insertKey, groupSum, floorHour]
  have hrange : hourRange event_start_default event_end_default =
      [22440, 22500, 22560, 22620] := by decide
  have heval : get_10of10_baselines [(21000, 1000)] event_start_default event_end_default =
      [(22440, some 1000), (22500, none), (22560, none), (22620, none)] := by
    unfold get_10of10_baselines historicalHourTotals
    simp only [hwin, hagg, hrange]
    norm_num [hourOfDay, List.filter, listMean_singleton, listMean]
    decide
  have hmem : ((22500 : Nat), (none : Option ℚ)) ∈
      get_10of10_baselines [(21000, 1000)] event_start_default event_end_default := by
    rw [heval]
    simp
  exact ⟨hmem,
    C6_empty_hour_gives_nan [(21000, 1000)] event_start_default event_end_default
      (22500, none) hmem⟩

/-- `sortedKeys` is a permutation of any duplicate-free list with the same
members. -/
theorem sortedKeys_perm {l K : List Nat} (hK : K.Nodup) (h : ∀ a, a ∈ l ↔ a ∈ K) :
    (sortedKeys l).Perm K :=
  (List.perm_ext_iff_of_nodup (nodup_sortedKeys l) hK).mpr
    (fun a => mem_sortedKeys.trans (h a))

/-- The value column of the union-aligned difference, as a map over the
union keys. -/
theorem alignSub_values (b : List (Nat × Option ℚ)) (agg : List (Nat × ℚ)) :
    (alignSub b agg).map (fun p => p.2) =
      (sortedKeys (b.map (fun p => p.1) ++ agg.map (fun p => p.1))).map
        (fun k =>
          match lookup b k, lookup agg k with
          | some (some bv), some av => some (bv - av)
          | _, _ => none) := by
  unfold alignSub
  rw [List.map_map]
  rfl

/-- Mapping a function of key and looked-up value over a duplicate-free
index is mapping it over the entries. -/
theorem map_keys_lookup {α β : Type} (l : List (Nat × α))
    (hnd : (l.map (fun p => p.1)).Nodup) (g : Nat → α → β) (d : α) :
    (l.map (fun p => p.1)).map (fun k => g k ((lookup l k).getD d)) =
      l.map (fun p => g p.1 p.2) := by
  induction l with
  | nil => rfl
  | cons p ps ih =>
      rw [List.map_cons, List.nodup_cons] at hnd
      rw [List.map_cons, List.map_cons, List.map_cons]
      congr 1
      · have hl : lookup (p :: ps) p.1 = some p.2 := by
          unfold lookup
          rw [List.find?_cons_of_pos _ (by simp)]
          rfl
        rw [hl]
        rfl
      · rw [← ih hnd.2]
        apply List.map_congr_left
        intro a ha
        have hne : p.1 ≠ a := fun e => hnd.1 (e ▸ ha)
        have hl : lookup (p :: ps) a = lookup ps a := by
          unfold lookup
          rw [List.find?_cons_of_neg _ (by simpa using hne)]
        rw [hl]

/-- The index of the hourly aggregate is the sorted key set of the floored
timestamps. -/
theorem hourlyAgg_keys (s : List (Nat × ℚ)) :
    (hourlyAgg s).map (fun p => p.1) = sortedKeys (s.map (fun p => floorHour p.1)) := by
  unfold hourlyAgg
  rw [List.map_map]
  exact List.map_id _

/-- The hourly aggregate of a non-empty series is non-empty. -/
theorem hourlyAgg_ne_nil {s : List (Nat × ℚ)} (h : s ≠ []) : hourlyAgg s ≠ [] := by
  cases s with
  | nil => exact absurd rfl h
  | cons p ps =>
      intro hnil
      have hm : floorHour p.1 ∈ sortedKeys ((p :: ps).map (fun q => floorHour q.1)) :=
        mem_sortedKeys.mpr (List.mem_map.mpr ⟨p, List.mem_cons_self p ps, rfl⟩)
      unfold hourlyAgg at hnil
      rw [List.map_eq_nil_iff] at hnil
      rw [hnil] at hm
      exact List.not_mem_nil _ hm

/-- `skipnaMean` over the deduplicated doubled key set is the mean over the
key set itself. -/
theorem skipnaMean_sortedKeys_self (K : List Nat) (hK : K.Nodup) (F : Nat → Option ℚ) :
    skipnaMean ((sortedKeys (K ++ K)).map F) = skipnaMean (K.map F) :=
  skipnaMean_perm
    ((sortedKeys_perm hK (fun a => by simp [List.mem_append])).map F)

/-- `skipnaMean` over an all-defined series is the plain mean. -/
theorem skipnaMean_map_some {α : Type} (l : List α) (h : α → ℚ) :
    skipnaMean (l.map (fun a => some (h a))) = listMean (l.map h) := by
  unfold skipnaMean
  rw [List.filterMap_map]
  exact congrArg listMean (congrFun (List.filterMap_eq_map h) l)

/-- Claim C5: per-hour performance is `baseline(hour) − actual(hour)` and
overall performance is the arithmetic mean of the per-hour values, for a
scalar baseline broadcast over the hourly totals, and for an hourly
baseline series covering exactly the actual hours.  The result `m`
satisfies `m · (number of hours) = Σ (baseline(hour) − actual(hour))`, so a
positive mean means consumption below baseline. -/
theorem C5_performance_is_mean_of_differences (cs : List (Nat × ℚ)) (c : ℚ)
    (bf : Nat → ℚ) (hne : cs ≠ []) :
    (∃ m, customer_performance_from_baseline cs (.scalar c) = some m ∧
        m * (hourlyAgg cs).length = ((hourlyAgg cs).map (fun p => c - p.2)).sum) ∧
      (∃ m, customer_performance_from_baseline cs
            (.series ((hourlyAgg cs).map (fun p => (p.1, some (bf p.1))))) = some m ∧
          m * (hourlyAgg cs).length =
            ((hourlyAgg cs).map (fun p => bf p.1 - p.2)).sum) := by
  have haggne : hourlyAgg cs ≠ [] := hourlyAgg_ne_nil hne
  constructor
  · have hmapne : (hourlyAgg cs).map (fun p => c - p.2) ≠ [] := by
      intro h0
      exact haggne (List.map_eq_nil_iff.mp h0)
    obtain ⟨m, hm, hmul⟩ := listMean_spec hmapne
    refine ⟨m, hm, ?_⟩
    rw [List.length_map] at hmul
    exact hmul
  · have hKnd : ((hourlyAgg cs).map (fun p => p.1)).Nodup := by
      rw [hourlyAgg_keys]
      exact nodup_sortedKeys _
    have hKeq : ((hourlyAgg cs).map (fun p => (p.1, some (bf p.1)))).map (fun p => p.1) =
        (hourlyAgg cs).map (fun p => p.1) := by
      rw [List.map_map]
      rfl
    have hmapf : ((hourlyAgg cs).map (fun p => p.1)).map
        (fun k =>
          match lookup ((hourlyAgg cs).map (fun p => (p.1, some (bf p.1)))) k,
              lookup (hourlyAgg cs) k with
          | some (some bv), some av => some (bv - av)
          | _, _ => none) =
        (hourlyAgg cs).map (fun p => some (bf p.1 - p.2)) := by
      rw [← map_keys_lookup (hourlyAgg cs) hKnd (fun k a => some (bf k - a)) 0]
      apply List.map_congr_left
      intro k hk
      have hbK : (hourlyAgg cs).map (fun p => (p.1, some (bf p.1))) =
          ((hourlyAgg cs).map (fun p => p.1)).map (fun k => (k, some (bf k))) := by
        rw [List.map_map]
        rfl
      have hbl : lookup ((hourlyAgg cs).map (fun p => (p.1, some (bf p.1)))) k =
          some (some (bf k)) := by
        rw [hbK, lookup_map_key, if_pos hk]
      have hagk : lookup (hourlyAgg cs) k ≠ none :=
        fun h0 => lookup_eq_none_iff.mp h0 hk
      obtain ⟨av, hav⟩ := Option.ne_none_iff_exists'.mp hagk
      rw [hbl, hav]
      rfl
    have hfin : customer_performance_from_baseline cs
        (.series ((hourlyAgg cs).map (fun p => (p.1, some (bf p.1))))) =
        listMean ((hourlyAgg cs).map (fun p => bf p.1 - p.2)) := by
      show skipnaMean ((alignSub ((hourlyAgg cs).map (fun p => (p.1, some (bf p.1))))
          (hourlyAgg cs)).map (fun p => p.2)) = _
      rw [alignSub_values, hKeq, skipnaMean_sortedKeys_self _ hKnd, hmapf,
        skipnaMean_map_some]
    have hmapne2 : (hourlyAgg cs).map (fun p => bf p.1 - p.2) ≠ [] := by
      intro h0
      exact haggne (List.map_eq_nil_iff.mp h0)
    obtain ⟨m, hm, hmul⟩ := listMean_spec hmapne2
    refine ⟨m, ?_, ?_⟩
    · rw [hfin]
      exact hm
    · rw [List.length_map] at hmul
      exact hmul

/-- Witness for C5 at a concrete two-hour series with scalar baseline 10
and constant hourly baseline 10. -/
theorem C5_witness :
    ([((0 : Nat), (5 : ℚ)), (60, 7)] ≠ ([] : List (Nat × ℚ))) ∧
      ((∃ m, customer_performance_from_baseline [((0 : Nat), (5 : ℚ)), (60, 7)]
            (.scalar 10) = some m ∧
          m * (hourlyAgg [((0 : Nat), (5 : ℚ)), (60, 7)]).length =
            ((hourlyAgg [((0 : Nat), (5 : ℚ)), (60, 7)]).map (fun p => 10 - p.2)).sum) ∧
        (∃ m, customer_performance_from_baseline [((0 : Nat), (5 : ℚ)), (60, 7)]
              (.series ((hourlyAgg [((0 : Nat), (5 : ℚ)), (60, 7)]).map
                (fun p => (p.1, some (10 : ℚ))))) = some m ∧
            m * (hourlyAgg [((0 : Nat), (5 : ℚ)), (60, 7)]).length =
              ((hourlyAgg [((0 : Nat), (5 : ℚ)), (60, 7)]).map
                (fun p => (10 : ℚ) - p.2)).sum)) :=
  ⟨by simp, C5_performance_is_mean_of_differences [((0 : Nat), (5 : ℚ)), (60, 7)] 10
    (fun _ => 10) (by simp)⟩

/-- Claim C8 (amended): an hour present in the baseline series but absent
from the actual hourly totals contributes a `NaN` aligned difference that
the skip-`NaN` mean silently drops — appending such a baseline entry leaves
the overall performance unchanged — rather than raising a data-mismatch
error. -/
theorem C8_mismatched_hour_silently_skipped (cs : List (Nat × ℚ))
    (b : List (Nat × Option ℚ)) (k : Nat) (v : Option ℚ)
    (hb : lookup b k = none) (ha : lookup (hourlyAgg cs) k = none) :
    customer_performance_from_baseline cs (.series (b ++ [(k, v)])) =
      customer_performance_from_baseline cs (.series b) := by
  have hkm : k ∉ (b.map (fun p => p.1) ++ (hourlyAgg cs).map (fun p => p.1)) := by
    rw [List.mem_append]
    push_neg
    exact ⟨lookup_eq_none_iff.mp hb, lookup_eq_none_iff.mp ha⟩
  have hperm : (sortedKeys ((b ++ [(k, v)]).map (fun p => p.1) ++
        (hourlyAgg cs).map (fun p => p.1))).Perm
      (k :: sortedKeys (b.map (fun p => p.1) ++ (hourlyAgg cs).map (fun p => p.1))) := by
    refine (List.perm_ext_iff_of_nodup (nodup_sortedKeys _) ?_).mpr ?_
    · rw [List.nodup_cons]
      exact ⟨fun hc => hkm (mem_sortedKeys.mp hc), nodup_sortedKeys _⟩
    · intro a
      rw [mem_sortedKeys, List.mem_cons, mem_sortedKeys, List.map_append]
      simp only [List.mem_append, List.map_cons, List.map_nil, List.mem_cons,
        List.not_mem_nil, or_false]
      tauto
  show skipnaMean ((alignSub (b ++ [(k, v)]) (hourlyAgg cs)).map (fun p => p.2)) =
    skipnaMean ((alignSub b (hourlyAgg cs)).map (fun p => p.2))
  rw [alignSub_values, alignSub_values]
  have hpm := skipnaMean_perm (hperm.map (fun k' =>
      match lookup (b ++ [(k, v)]) k', lookup (hourlyAgg cs) k' with
      | some (some bv), some av => some (bv - av)
      | _, _ => none))
  rw [hpm]
  simp only [List.map_cons]
  have hvk : (match lookup (b ++ [(k, v)]) k, lookup (hourlyAgg cs) k with
      | some (some bv), some av => some (bv - av)
      | _, _ => none) = none := by
    rw [ha]
    rcases lookup (b ++ [(k, v)]) k with _ | o
    · rfl
    · rcases o with _ | q <;> rfl
  rw [hvk, skipnaMean_cons_none]
  congr 1
  apply List.map_congr_left
  intro a ha2
  have hak : a ≠ k := fun e => hkm (e ▸ mem_sortedKeys.mp ha2)
  simp only [lookup_append_single_ne hak]

/-- Counterexample to claim C8 as stated: the baseline covers hours 0 and
60 but the actual series covers only hour 0; the evaluation succeeds and
returns the mean over the single matched hour (10 − 5 = 5), silently
dropping hour 60 instead of raising a data-mismatch error. -/
theorem C8_counterexample :
    customer_performance_from_baseline [(0, 5)]
        (.series [(0, some 10), (60, some 20)]) = some 5 := by
  show skipnaMean ((alignSub [(0, some 10), (60, some 20)] (hourlyAgg [(0, 5)])).map
      (fun p => p.2)) = some 5
  rw [alignSub_values]
  have hagg : hourlyAgg [(0, (5 : ℚ))] = [(0, 5)] := by
    norm_num [hourlyAgg, sortedKeys, insertKey, groupSum, floorHour]
  rw [hagg]
  have hkeys : sortedKeys ([((0 : Nat), some (10 : ℚ)), (60, some 20)].map (fun p => p.1) ++
      [((0 : Nat), (5 : ℚ))].map (fun p => p.1)) = [0, 60] := by decide
  rw [hkeys]
  simp only [List.map_cons, List.map_nil, lookup_cons, lookup_nil]
  norm_num [skipnaMean, listMean, List.filterMap]

/-- Witness for C8 at the concrete mismatched hour 60. -/
theorem C8_witness :
    (lookup [((0 : Nat), some (10 : ℚ))] 60 = none) ∧
      (lookup (hourlyAgg [((0 : Nat), (5 : ℚ))]) 60 = none) ∧
      customer_performance_from_baseline [(0, 5)]
          (.series ([(0, some 10)] ++ [(60, some 20)])) =
        customer_performance_from_baseline [(0, 5)] (.series [(0, some 10)]) :=
  ⟨by decide, by decide, C8_mismatched_hour_silently_skipped [(0, 5)] [(0, some 10)] 60
    (some 20) (by decide) (by decide)⟩

end Homework
